import Mathlib

/-!
Verification of the projectImpact repository: a Wikipedia infobox
extractor (`get_asteroid_info.py`, Pipeline A) and a mesh bounding-box
measurer (`read.py`, Pipeline B).

The HTTP fetch, HTML parsing and mesh loading libraries are external
collaborators; they are modelled as explicit function parameters.
A fetched-and-parsed page is abstracted to the result of locating the
first table of class `infobox` followed by `find_all("tr")`:
an optional list of rows, where each row carries the text contents of
its `th` cells and of its `td` cells in document order.  Python `dict`s
are modelled as ordered association lists with in-place overwrite on
key collision, matching the insertion-order semantics of CPython.
-/

namespace ProjectImpact

/-- Characters stripped by Python `str.strip()` (ASCII whitespace). -/
def isPySpace (c : Char) : Bool :=
  c == ' ' || c == '\t' || c == '\n' || c == '\r' || c == '\x0b' || c == '\x0c'

/-- Python `s.strip()`: remove leading and trailing whitespace. -/
def pyStrip (s : String) : String :=
  ⟨((s.toList.dropWhile isPySpace).reverse.dropWhile isPySpace).reverse⟩

/-- Python `needle in hay` on strings: substring containment. -/
def containsSub (needle hay : String) : Bool :=
  (List.range (hay.toList.length + 1)).any
    (fun i => needle.toList.isPrefixOf (hay.toList.drop i))

/-- Ordered string-keyed dictionary, as CPython observes it. -/
abbrev Dict := List (String × String)

/-- Python `d[k] = v`: overwrite in place if the key exists, else append. -/
def dictInsert : Dict → String → String → Dict
  | [], k, v => [(k, v)]
  | e :: rest, k, v =>
      if e.1 = k then (k, v) :: rest else e :: dictInsert rest k v

/-- Python `d.get(k)`: value at the key, if present. -/
def dictGet (k : String) : Dict → Option String
  | [] => none
  | e :: rest => if e.1 = k then some e.2 else dictGet k rest

/-- The keys of a dictionary, in order. -/
def keysOf (m : Dict) : List String := m.map Prod.fst

/-- One `tr` row of the infobox: the text of its `th` cells and of its
`td` cells, in document order.  `row.find("th")` is the head of `ths`,
`row.find("td")` the head of `tds`. -/
structure Row where
  ths : List String
  tds : List String
deriving DecidableEq

/-- The parsed page, abstracted to the located infobox:
`none` when no table of class `infobox` is found,
otherwise the rows returned by `find_all("tr")`. -/
abbrev Page := Option (List Row)

/-- The fixed substring list of `get_asteroid_data`. -/
def keywords : List String := ["Dimensions", "Mass", "Mean density"]

/-- `any(k in key for k in ["Dimensions", "Mass", "Mean density"])`. -/
def matchesKeyword (key : String) : Bool :=
  keywords.any (fun k => containsSub k key)

/-- Python `title.replace(space, underscore)`: each space becomes an
underscore, every other character is passed through unchanged. -/
def replaceSpaces (title : String) : String :=
  ⟨title.toList.map (fun c => if c = ' ' then '_' else c)⟩

/-- The URL built by `get_asteroid_data`: the Wikipedia base followed by
the title with spaces replaced by underscores. -/
def urlOf (title : String) : String :=
  "https://en.wikipedia.org/wiki/" ++ replaceSpaces title

/-- The body of the `for row in infobox.find_all("tr")` loop:
take the first `th` and first `td`; if both exist, strip both texts and
insert the pair when the stripped header matches a keyword. -/
def processRow (info : Dict) (row : Row) : Dict :=
  match row.ths.head?, row.tds.head? with
  | some header, some data =>
      let key := pyStrip header
      let val := pyStrip data
      if matchesKeyword key then dictInsert info key val else info
  | _, _ => info

/-- `get_asteroid_data(title)`, with the fetch-and-parse collaborator
passed explicitly: build the URL, seed the record with `name` and `url`,
return it as is when no infobox is found, otherwise fold the row loop
over the infobox rows. -/
def get_asteroid_data (fetch : String → Page) (title : String) : Dict :=
  let url := urlOf title
  let info : Dict := [("name", title), ("url", url)]
  match fetch url with
  | none => info
  | some rows => rows.foldl processRow info

/-- The static subject list of Pipeline A. -/
def asteroids : List String :=
  ["243 Ida",
   "25143 Itokawa",
   "11351 Leucus",
   "21 Lutetia",
   "Menoetius",
   "21900 Orus",
   "617 Patroclus",
   "15094 Polymele",
   "162173 Ryugu",
   "73P/Schwassmannâ€“Wachmann",
   "9P/Tempel 1",
   "4 Vesta",
   "81P/Wild"]

/-- `results = [get_asteroid_data(a) for a in asteroids]`. -/
def results (fetch : String → Page) : List Dict :=
  asteroids.map (get_asteroid_data fetch)

/-! ## Pipeline B: mesh measurement (`read.py`) -/

/-- A 3-component vector of coordinates.  The numeric type abstracts the
floating-point coordinates of the mesh library. -/
structure Vec3 where
  x : ℚ
  y : ℚ
  z : ℚ
deriving DecidableEq

/-- Componentwise subtraction, as `bounds[1] - bounds[0]` on arrays. -/
def Vec3.sub (a b : Vec3) : Vec3 := ⟨a.x - b.x, a.y - b.y, a.z - b.z⟩

/-- `size.max()`: the largest component. -/
def Vec3.maxComp (v : Vec3) : ℚ := max v.x (max v.y v.z)

/-- The loaded scene, abstracted to its `bounds` accessor:
`(minimum corner, maximum corner)`. -/
structure Scene where
  bounds : Vec3 × Vec3

/-- A loader: `trimesh.load` together with the `bounds` access, which
either yields a scene or raises (modelled as an error message). -/
abbrev Loader := String → Except String Scene

/-- One line printed by Pipeline B: either the success line with the
filename, the size vector and the largest dimension, or the error line
with the filename and the caught error text. -/
inductive Line where
  | ok (file : String) (size : Vec3) (maxDim : ℚ)
  | err (file : String) (msg : String)
deriving DecidableEq

/-- `os.path.join(folder, file)`. -/
def pathJoin (folder file : String) : String := folder ++ "/" ++ file

/-- `file.endswith(".glb")`: case-sensitive suffix match. -/
def endsWithGlb (file : String) : Bool :=
  ".glb".toList.isSuffixOf file.toList

/-- The hardcoded directory of Pipeline B. -/
def folder : String := "public/meteors"

/-- The body of the `for file in os.listdir(folder)` loop: skip files
without the `.glb` suffix; otherwise load, and print either the size
line or, when the load raises, the caught-error line. -/
def processFile (load : Loader) (dir file : String) : List Line :=
  if endsWithGlb file then
    match load (pathJoin dir file) with
    | Except.ok mesh =>
        let size := mesh.bounds.2.sub mesh.bounds.1
        [Line.ok file size size.maxComp]
    | Except.error e => [Line.err file e]
  else []

/-- Pipeline B in full: the loop over the directory listing, each entry
contributing its printed lines in order. -/
def runMeshPipeline (load : Loader) (dir : String) (files : List String) :
    List Line :=
  files.flatMap (processFile load dir)

/-! ## Spec-side helpers for stating the claims -/

/-- The entry a row contributes, if any: present exactly when the row
has a first `th` and a first `td` and the stripped header matches a
keyword. -/
def rowEntry (row : Row) : Option (String × String) :=
  match row.ths.head?, row.tds.head? with
  | some header, some data =>
      if matchesKeyword (pyStrip header) then
        some (pyStrip header, pyStrip data)
      else none
  | _, _ => none

/-- The stripped header texts of the keyword-matching rows, in row
order. -/
def matchingKeys (rows : List Row) : List String :=
  (rows.filterMap rowEntry).map Prod.fst

/-- Fold step recording the value of the last row so far that
contributes an entry at key `k`. -/
def lastStep (k : String) (acc : Option String) (row : Row) : Option String :=
  match rowEntry row with
  | some e => if e.1 = k then some e.2 else acc
  | none => acc

/-- The stripped data text of the last row contributing an entry at key
`k`, if any row does. -/
def lastVal (k : String) (rows : List Row) : Option String :=
  rows.foldl (lastStep k) none

/-! ## Concrete collaborators used by witnesses -/

/-- A mocked infobox: a row whose header matches no keyword and a row
whose header matches `Mass`, both with surrounding whitespace. -/
def mockInfobox : List Row :=
  [⟨["Discoverer"], ["Annibale de Gasparis"]⟩,
   ⟨[" Mass (10^20 kg) "], [" 2.59 ± 0.02 "]⟩]

/-- A fetch collaborator serving `mockInfobox` for every URL. -/
def mockFetch : String → Page := fun _ => some mockInfobox

/-- A mocked infobox with two keyword-matching rows of distinct keys. -/
def wRows : List Row :=
  [⟨["Mass"], ["40 billion tonnes"]⟩, ⟨["Dimensions x"], ["59.8 km"]⟩]

/-- A fetch collaborator serving `wRows` for every URL. -/
def wFetch : String → Page := fun _ => some wRows

/-- A mocked infobox whose two rows strip to the identical header
`Mass` with different data. -/
def dupRows : List Row :=
  [⟨["Mass"], [" 1 "]⟩, ⟨[" Mass "], ["2"]⟩]

/-- A fetch collaborator serving `dupRows` for every URL. -/
def dupFetch : String → Page := fun _ => some dupRows

/-- A loader that raises on every path. -/
def loadErr : Loader := fun _ => Except.error "boom"

/-- A concrete scene with bounds from the origin to `(1, 3, 2)`. -/
def sceneW : Scene := ⟨(⟨0, 0, 0⟩, ⟨1, 3, 2⟩)⟩

/-- A loader that yields `sceneW` on every path. -/
def loadOk : Loader := fun _ => Except.ok sceneW

/-! ## Dictionary lemmas -/

theorem dictGet_dictInsert (m : Dict) (k k' v : String) :
    dictGet k (dictInsert m k' v) = if k = k' then some v else dictGet k m := by
  induction m with
  | nil =>
      by_cases hk : k = k'
      · subst hk; simp [dictInsert, dictGet]
      · simp [dictInsert, dictGet, hk, Ne.symm hk]
  | cons e rest ih =>
      by_cases he : e.1 = k'
      · by_cases hk : k = k'
        · subst hk; simp [dictInsert, dictGet, he]
        · simp [dictInsert, dictGet, he, hk, Ne.symm hk]
      · by_cases hk : k = k'
        · subst hk
          simp [dictInsert, dictGet, he, ih]
        · simp [dictInsert, dictGet, he, hk, ih]

theorem dictInsert_of_not_mem (m : Dict) (k v : String)
    (h : k ∉ keysOf m) : dictInsert m k v = m ++ [(k, v)] := by
  induction m with
  | nil => rfl
  | cons e rest ih =>
      simp [keysOf] at h
      push_neg at h
      simp [dictInsert, Ne.symm h.1]
      exact ih (by simpa [keysOf] using h.2)

theorem mem_keysOf_dictInsert (m : Dict) (k v j : String) :
    j ∈ keysOf (dictInsert m k v) ↔ j = k ∨ j ∈ keysOf m := by
  induction m with
  | nil => simp [dictInsert, keysOf]
  | cons e rest ih =>
      by_cases he : e.1 = k
      · simp [dictInsert, he, keysOf]
      · simp only [dictInsert, he, if_false, keysOf, List.map_cons,
          List.mem_cons]
        rw [show (List.map Prod.fst (dictInsert rest k v) : List String)
              = keysOf (dictInsert rest k v) from rfl, ih]
        simp [keysOf]
        tauto

theorem nodup_keysOf_dictInsert (m : Dict) (k v : String)
    (h : (keysOf m).Nodup) : (keysOf (dictInsert m k v)).Nodup := by
  induction m with
  | nil => simp [dictInsert, keysOf]
  | cons e rest ih =>
      simp only [keysOf, List.map_cons, List.nodup_cons] at h
      by_cases he : e.1 = k
      · simp only [dictInsert, he, if_true, keysOf, List.map_cons,
          List.nodup_cons]
        exact ⟨he ▸ h.1, h.2⟩
      · simp only [dictInsert, he, if_false, keysOf, List.map_cons,
          List.nodup_cons]
        refine ⟨fun hmem => ?_, ih h.2⟩
        rcases (mem_keysOf_dictInsert rest k v e.1).1 hmem with h1 | h1
        · exact he h1
        · exact h.1 h1

/-! ## Row-loop lemmas -/

theorem processRow_eq (info : Dict) (row : Row) :
    processRow info row =
      match rowEntry row with
      | some e => dictInsert info e.1 e.2
      | none => info := by
  unfold processRow rowEntry
  cases row.ths.head? with
  | none => rfl
  | some header =>
      cases row.tds.head? with
      | none => rfl
      | some data =>
          by_cases hm : matchesKeyword (pyStrip header) <;> simp [hm]

theorem rowEntry_matches {row : Row} {e : String × String}
    (h : rowEntry row = some e) : matchesKeyword e.1 = true := by
  unfold rowEntry at h
  split at h
  · split at h
    · cases h
      assumption
    · cases h
  · cases h

theorem dictGet_foldl (k : String) (rows : List Row) :
    ∀ info : Dict, dictGet k (rows.foldl processRow info)
      = rows.foldl (lastStep k) (dictGet k info) := by
  induction rows with
  | nil => intro info; rfl
  | cons r rs ih =>
      intro info
      rw [List.foldl_cons, List.foldl_cons, ih]
      congr 1
      rw [processRow_eq]
      unfold lastStep
      cases hre : rowEntry r with
      | none => rfl
      | some e =>
          rw [dictGet_dictInsert]
          by_cases hk : k = e.1
          · simp [hk]
          · simp [hk, Ne.symm hk]

theorem foldl_lastStep_init (k : String) (rows : List Row) :
    ∀ a : Option String, rows.foldl (lastStep k) a =
      match rows.foldl (lastStep k) none with
      | some v => some v
      | none => a := by
  induction rows with
  | nil => intro a; rfl
  | cons r rs ih =>
      intro a
      rw [List.foldl_cons, List.foldl_cons, ih (lastStep k a r),
        ih (lastStep k none r)]
      cases hfs : rs.foldl (lastStep k) none with
      | some v => rfl
      | none =>
          unfold lastStep
          cases rowEntry r with
          | none => rfl
          | some e => by_cases he : e.1 = k <;> simp [he]

theorem foldl_lastStep_of_some {k v : String} {rows : List Row}
    (h : lastVal k rows = some v) (a : Option String) :
    rows.foldl (lastStep k) a = some v := by
  rw [foldl_lastStep_init k rows a]
  unfold lastVal at h
  rw [h]

theorem foldl_lastStep_not_match {k : String}
    (hk : matchesKeyword k = false) (rows : List Row) :
    ∀ a, rows.foldl (lastStep k) a = a := by
  induction rows with
  | nil => intro a; rfl
  | cons r rs ih =>
      intro a
      rw [List.foldl_cons, ih]
      unfold lastStep
      cases hre : rowEntry r with
      | none => rfl
      | some e =>
          have hm := rowEntry_matches hre
          have hne : e.1 ≠ k := by
            intro hek
            rw [hek] at hm
            rw [hm] at hk
            exact Bool.noConfusion hk
          simp [hne]

theorem dictGet_not_match (fetch : String → Page) (title k : String)
    (hk : matchesKeyword k = false) :
    dictGet k (get_asteroid_data fetch title)
      = dictGet k [("name", title), ("url", urlOf title)] := by
  simp only [get_asteroid_data]
  cases hf : fetch (urlOf title) with
  | none => rfl
  | some rows => rw [dictGet_foldl, foldl_lastStep_not_match hk]

theorem keysOf_foldl (rows : List Row) :
    ∀ info : Dict, (matchingKeys rows).Nodup →
      (∀ j ∈ matchingKeys rows, j ∉ keysOf info) →
      keysOf (rows.foldl processRow info) = keysOf info ++ matchingKeys rows := by
  induction rows with
  | nil =>
      intro info _ _
      simp [matchingKeys]
  | cons r rs ih =>
      intro info hnd hdisj
      rw [List.foldl_cons, processRow_eq]
      cases hre : rowEntry r with
      | none =>
          have hmk : matchingKeys (r :: rs) = matchingKeys rs := by
            simp [matchingKeys, List.filterMap_cons, hre]
          rw [hmk] at hnd hdisj ⊢
          exact ih info hnd hdisj
      | some e =>
          have hmk : matchingKeys (r :: rs) = e.1 :: matchingKeys rs := by
            simp [matchingKeys, List.filterMap_cons, hre]
          rw [hmk] at hnd hdisj ⊢
          rw [List.nodup_cons] at hnd
          have h1 : e.1 ∉ keysOf info := hdisj e.1 (List.mem_cons_self _ _)
          show keysOf (List.foldl processRow (dictInsert info e.1 e.2) rs)
            = keysOf info ++ e.1 :: matchingKeys rs
          rw [dictInsert_of_not_mem info e.1 e.2 h1]
          rw [ih (info ++ [(e.1, e.2)]) hnd.2 ?_]
          · simp [keysOf]
          · intro j hj
            simp only [keysOf, List.map_append, List.mem_append,
              List.map_cons, List.map_nil, List.mem_singleton]
            push_neg
            refine ⟨hdisj j (List.mem_cons_of_mem _ hj), fun hje => ?_⟩
            exact hnd.1 (hje ▸ hj)

theorem nodup_keysOf_foldl (rows : List Row) :
    ∀ info : Dict, (keysOf info).Nodup →
      (keysOf (rows.foldl processRow info)).Nodup := by
  induction rows with
  | nil => intro info h; exact h
  | cons r rs ih =>
      intro info h
      rw [List.foldl_cons, processRow_eq]
      cases hre : rowEntry r with
      | none => exact ih info h
      | some e => exact ih _ (nodup_keysOf_dictInsert info e.1 e.2 h)

theorem mem_matchingKeys {rows : List Row} {j : String}
    (h : j ∈ matchingKeys rows) : matchesKeyword j = true := by
  unfold matchingKeys at h
  rcases List.mem_map.1 h with ⟨e, he, rfl⟩
  rcases List.mem_filterMap.1 he with ⟨row, _, hre⟩
  exact rowEntry_matches hre

/-! ## The claims -/

/-- C1: For every infobox row with both a header cell and a data cell,
the extractor strips surrounding whitespace from both texts and inserts
the pair into the record, keyed by the raw stripped header text, exactly
when the stripped header contains one of the substrings `Dimensions`,
`Mass`, `Mean density`; a mocked infobox with a `Discoverer` row and a
row with header ` Mass (10^20 kg) ` yields a record whose only extra
key is `Mass (10^20 kg)`, mapped to the trimmed data text, with no
`Discoverer` key. -/
theorem row_filter_iff_keyword :
    (∀ (info : Dict) (hd d : String) (ths tds : List String),
        processRow info ⟨hd :: ths, d :: tds⟩ =
          if matchesKeyword (pyStrip hd) then
            dictInsert info (pyStrip hd) (pyStrip d)
          else info)
    ∧ get_asteroid_data mockFetch "Mock"
        = [("name", "Mock"), ("url", "https://en.wikipedia.org/wiki/Mock"),
           ("Mass (10^20 kg)", "2.59 ± 0.02")]
    ∧ dictGet "Discoverer" (get_asteroid_data mockFetch "Mock") = none := by
  refine ⟨fun info hd d ths tds => rfl, by decide, by decide⟩

/-- C2: For every subject label and every page, the extracted record
maps `name` to the label unchanged and `url` to the Wikipedia base URL
followed by the label with each space replaced by an underscore and all
other characters passed through. -/
theorem name_url_fields (fetch : String → Page) (title : String) :
    dictGet "name" (get_asteroid_data fetch title) = some title ∧
    dictGet "url" (get_asteroid_data fetch title)
      = some ("https://en.wikipedia.org/wiki/" ++
          ⟨title.toList.map (fun c => if c = ' ' then '_' else c)⟩) := by
  constructor
  · rw [dictGet_not_match fetch title "name" (by decide)]
    simp [dictGet]
  · rw [dictGet_not_match fetch title "url" (by decide)]
    simp [dictGet, urlOf, replaceSpaces]

/-- C3: When the parsed document has no infobox table, the extractor
returns the record containing exactly the two entries `name` and `url`,
with no error. -/
theorem no_infobox_minimal_record (fetch : String → Page) (title : String)
    (h : fetch (urlOf title) = none) :
    get_asteroid_data fetch title = [("name", title), ("url", urlOf title)] := by
  simp only [get_asteroid_data, h]

theorem no_infobox_minimal_record_witness :
    get_asteroid_data (fun _ => none) "4 Vesta"
      = [("name", "4 Vesta"), ("url", urlOf "4 Vesta")] :=
  no_infobox_minimal_record (fun _ => none) "4 Vesta" rfl

/-- C4: The batch driver invokes the extractor once per subject in
input order: the output list has the same length as the subject list
and its `i`-th element is the extraction of the `i`-th subject, for
every index `i`. -/
theorem batch_order_preserved (fetch : String → Page) :
    (results fetch).length = asteroids.length ∧
    ∀ i : Nat, (results fetch)[i]?
      = (asteroids[i]?).map (get_asteroid_data fetch) := by
  refine ⟨by simp [results], fun i => ?_⟩
  simp [results]

/-- C5: Pipeline B processes exactly the entries with the lowercase
suffix `.glb`: on the directory `a.glb`, `b.txt`, `c.GLB` only `a.glb`
contributes output, every non-matching entry contributes no output at
all, and the run depends only on how the loader behaves at `a.glb`. -/
theorem glb_suffix_filter (load load' : Loader) :
    runMeshPipeline load folder ["a.glb", "b.txt", "c.GLB"]
      = processFile load folder "a.glb"
    ∧ (∀ file, endsWithGlb file = false → processFile load folder file = [])
    ∧ (load (pathJoin folder "a.glb") = load' (pathJoin folder "a.glb") →
        runMeshPipeline load folder ["a.glb", "b.txt", "c.GLB"]
          = runMeshPipeline load' folder ["a.glb", "b.txt", "c.GLB"]) := by
  have hb : endsWithGlb "b.txt" = false := by decide
  have hc : endsWithGlb "c.GLB" = false := by decide
  have ha : endsWithGlb "a.glb" = true := by decide
  refine ⟨?_, fun file hf => ?_, fun heq => ?_⟩
  · simp [runMeshPipeline, processFile, hb, hc]
  · simp [processFile, hf]
  · simp [runMeshPipeline, processFile, ha, hb, hc, heq]

theorem glb_suffix_filter_witness :
    processFile loadErr folder "b.txt" = [] ∧
    runMeshPipeline loadErr folder ["a.glb", "b.txt", "c.GLB"]
      = runMeshPipeline loadErr folder ["a.glb", "b.txt", "c.GLB"] :=
  ⟨(glb_suffix_filter loadErr loadErr).2.1 "b.txt" (by decide),
   (glb_suffix_filter loadErr loadErr).2.2 rfl⟩

/-- C6: An error raised while loading or measuring one `.glb` file is
caught locally: that file contributes exactly the one error line
carrying its filename and the error text, and the files before and
after it are processed exactly as they would be on their own — the loop
never aborts early. -/
theorem error_line_isolated (load : Loader) (dir : String)
    (fs₁ fs₂ : List String) (f e : String)
    (hglb : endsWithGlb f = true)
    (herr : load (pathJoin dir f) = Except.error e) :
    runMeshPipeline load dir (fs₁ ++ f :: fs₂)
      = runMeshPipeline load dir fs₁
        ++ Line.err f e :: runMeshPipeline load dir fs₂ := by
  simp [runMeshPipeline, List.flatMap_append, List.flatMap_cons,
    processFile, hglb, herr]

theorem error_line_isolated_witness :
    runMeshPipeline loadErr folder (["d.glb"] ++ "a.glb" :: ["e.glb"])
      = runMeshPipeline loadErr folder ["d.glb"]
        ++ Line.err "a.glb" "boom" :: runMeshPipeline loadErr folder ["e.glb"] :=
  error_line_isolated loadErr folder ["d.glb"] ["e.glb"] "a.glb" "boom"
    (by decide) rfl

/-- C7: For every successfully loaded `.glb` file, Pipeline B prints
one line with the filename, the size vector obtained as the
componentwise difference of the maximum and minimum bounding-box
corners, and the largest component of that vector. -/
theorem extent_max_formula (load : Loader) (dir file : String) (s : Scene)
    (hglb : endsWithGlb file = true)
    (hok : load (pathJoin dir file) = Except.ok s) :
    processFile load dir file
      = [Line.ok file
          ⟨s.bounds.2.x - s.bounds.1.x, s.bounds.2.y - s.bounds.1.y,
            s.bounds.2.z - s.bounds.1.z⟩
          (max (s.bounds.2.x - s.bounds.1.x)
            (max (s.bounds.2.y - s.bounds.1.y)
              (s.bounds.2.z - s.bounds.1.z)))] := by
  simp [processFile, hglb, hok, Vec3.sub, Vec3.maxComp]

theorem extent_max_formula_witness :
    processFile loadOk folder "a.glb" = [Line.ok "a.glb" ⟨1, 3, 2⟩ 3] := by
  rw [extent_max_formula loadOk folder "a.glb" sceneW (by decide) rfl]
  norm_num [sceneW, max_def]

/-- C8: Extraction is deterministic — the same label and page give the
same record — and, when the matching rows have pairwise distinct
stripped headers, the keys of the record are exactly `name`, `url` followed
by the matching headers in row order. -/
theorem extraction_deterministic_ordered (fetch : String → Page)
    (title : String) (rows : List Row)
    (hf : fetch (urlOf title) = some rows)
    (hnd : (matchingKeys rows).Nodup) :
    get_asteroid_data fetch title = get_asteroid_data fetch title ∧
    keysOf (get_asteroid_data fetch title)
      = "name" :: "url" :: matchingKeys rows := by
  refine ⟨rfl, ?_⟩
  simp only [get_asteroid_data, hf]
  rw [keysOf_foldl rows _ hnd ?_]
  · rfl
  · intro j hj
    have hm : matchesKeyword j = true := mem_matchingKeys hj
    intro hmem
    simp [keysOf] at hmem
    rcases hmem with h1 | h1 <;> subst h1 <;>
      exact absurd hm (by decide)

theorem extraction_deterministic_ordered_witness :
    keysOf (get_asteroid_data wFetch "Ida")
      = "name" :: "url" :: matchingKeys wRows :=
  (extraction_deterministic_ordered wFetch "Ida" wRows rfl (by decide)).2

/-- C9: Record keys are unique: two rows whose stripped headers are the
identical matching key collapse to one entry whose value is the stripped
data text of the last matching row. -/
theorem duplicate_key_last_wins (fetch : String → Page) (title : String)
    (rows : List Row) (k v : String)
    (hf : fetch (urlOf title) = some rows)
    (hlast : lastVal k rows = some v) :
    dictGet k (get_asteroid_data fetch title) = some v ∧
    (keysOf (get_asteroid_data fetch title)).Nodup := by
  constructor
  · simp only [get_asteroid_data, hf]
    rw [dictGet_foldl]
    exact foldl_lastStep_of_some hlast _
  · simp only [get_asteroid_data, hf]
    exact nodup_keysOf_foldl rows _
      (by show (["name", "url"] : List String).Nodup; decide)

theorem duplicate_key_last_wins_witness :
    dictGet "Mass" (get_asteroid_data dupFetch "X") = some "2" ∧
    (keysOf (get_asteroid_data dupFetch "X")).Nodup :=
  duplicate_key_last_wins dupFetch "X" dupRows "Mass" "2" rfl (by decide)

/-- C10: Within a row only the first header cell and first data cell
matter — extra cells are ignored — and a row lacking either kind of
cell contributes nothing to the record. -/
theorem first_cells_only :
    (∀ (info : Dict) (hd : String) (ths : List String) (d : String)
        (tds : List String),
        processRow info ⟨hd :: ths, d :: tds⟩ = processRow info ⟨[hd], [d]⟩)
    ∧ (∀ (info : Dict) (tds : List String), processRow info ⟨[], tds⟩ = info)
    ∧ (∀ (info : Dict) (ths : List String), processRow info ⟨ths, []⟩ = info) := by
  refine ⟨fun info hd ths d tds => rfl, fun info tds => rfl,
    fun info ths => ?_⟩
  cases ths <;> rfl

end ProjectImpact
